import Mathlib

/-!
Verification of the NextJS dashboard + data-normalization pipeline.

The repository has two halves:
* a TypeScript dashboard (`src/lib/api.ts`, `src/components/dashboard/charts.tsx`,
  the data table and metrics cards), embedded below directly from the source;
* a Python normalize-and-upload pipeline (`normalise_data_panda.py`, `uploader.py`)
  whose scripts are documented in the README (including the embedded
  `upload_in_batches` loop and the `CREATE TABLE IF NOT EXISTS processed_data` DDL)
  but whose full source is not in the repository checkout; those parts are
  modelled from the specification, as marked on each definition.

JavaScript numeric coercion (`x || d` on numbers, `Math.ceil` of a float
division on non-negative integers) is embedded with explicit helpers.
-/

/-- JavaScript `x || d` applied to a possibly-absent number: `undefined`/absent
and `0` are falsy and yield the default `d`; any other number passes through. -/
def jsOrNat (v : Option Nat) (d : Nat) : Nat :=
  match v with
  | none => d
  | some n => if n = 0 then d else n

/-- JavaScript `Number(x) || 0` on a field that is either a number or
uncoercible (`NaN` is falsy, so non-numeric input contributes 0). -/
def jsNum (v : Option Int) : Int :=
  match v with
  | none => 0
  | some n => n

/-- JavaScript `Math.ceil(a / b)` for non-negative integers `a`, `b`, embedded
as the ceiling of the exact rational quotient. -/
def jsCeilDiv (a b : Nat) : Nat :=
  (Int.ceil ((a : ℚ) / (b : ℚ))).toNat

/- ### `src/lib/api.ts`: `api.getProcessedData` -/

/-- The query parameters accepted by `api.getProcessedData` (all optional). -/
structure ApiParams where
  page : Option Nat
  limit : Option Nat
  user_id : Option String
  platform : Option String
  program_id : Option String

/-- The upstream API response body `{data: ProcessedData[], total: number}`,
with both fields possibly absent (the code guards with `|| []` and `|| 0`). -/
structure UpstreamResponse (α : Type) where
  rows : Option (List α)
  total : Option Nat

/-- The `PaginatedResponse<T>` interface of `src/types/index.ts`. -/
structure PaginatedResponse (α : Type) where
  data : List α
  total : Nat
  page : Nat
  limit : Nat
  totalPages : Nat

/-- `api.getProcessedData` from `src/lib/api.ts`, as a function of the request
parameters and the upstream response it receives: defaults `page` to 1 and
`limit` to 10 through `||`, passes `data` through with `|| []`, `total` with
`|| 0`, and computes `totalPages = Math.ceil(total / limit)`. -/
def getProcessedData (params : ApiParams) (resp : UpstreamResponse α) :
    PaginatedResponse α :=
  { data := resp.rows.getD []
    total := jsOrNat resp.total 0
    page := jsOrNat params.page 1
    limit := jsOrNat params.limit 10
    totalPages := jsCeilDiv (jsOrNat resp.total 0) (jsOrNat params.limit 10) }

/- ### `src/components/dashboard/charts.tsx` (DataTable): `generatePageNumbers` -/

/-- The body of the `for (let i = lo; i <= hi; i++) pages.push(i)` loop of
`generatePageNumbers`, collecting the pushed values in order. -/
def pagesLoop (hi i : Nat) : List Nat :=
  if i ≤ hi then i :: pagesLoop hi (i + 1) else []
termination_by hi + 1 - i
decreasing_by omega

/-- `generatePageNumbers` from the DataTable component: reads
`totalPages = data.totalPages || 1` and `currentPage = data.page || 1`, then
pushes every `i` from `Math.max(1, currentPage - 2)` up to
`Math.min(totalPages, currentPage + 2)`. -/
def generatePageNumbers (dataPage dataTotalPages : Option Nat) : List Nat :=
  let totalPages := jsOrNat dataTotalPages 1
  let currentPage := jsOrNat dataPage 1
  pagesLoop (min totalPages (currentPage + 2)) (max 1 (currentPage - 2))

theorem pagesLoop_eq_aux (hi : Nat) :
    ∀ n i, hi + 1 - i = n → pagesLoop hi i = List.range' i n := by
  intro n
  induction n with
  | zero =>
    intro i h
    rw [pagesLoop]
    rw [if_neg (by omega)]
    rfl
  | succ n ih =>
    intro i h
    rw [pagesLoop]
    rw [if_pos (by omega), List.range'_succ, ih (i + 1) (by omega)]

theorem pagesLoop_eq (hi i : Nat) : pagesLoop hi i = List.range' i (hi + 1 - i) :=
  pagesLoop_eq_aux hi (hi + 1 - i) i rfl

/-- C10: for every page `p ≥ 1` and total page count `t ≥ 1` with `p ≤ t`,
`generatePageNumbers` returns exactly the consecutive ascending integers from
`max 1 (p - 2)` through `min t (p + 2)`; the result is non-empty, has at most
5 elements, and every element lies in `[1, t]`. -/
theorem generatePageNumbers_consecutive (p t : Nat)
    (hp : 1 ≤ p) (ht : 1 ≤ t) (hpt : p ≤ t) :
    generatePageNumbers (some p) (some t)
        = List.range' (max 1 (p - 2)) (min t (p + 2) + 1 - max 1 (p - 2))
    ∧ (∀ i, i ∈ generatePageNumbers (some p) (some t) ↔
        max 1 (p - 2) ≤ i ∧ i ≤ min t (p + 2))
    ∧ generatePageNumbers (some p) (some t) ≠ []
    ∧ (generatePageNumbers (some p) (some t)).length ≤ 5
    ∧ ∀ i ∈ generatePageNumbers (some p) (some t), 1 ≤ i ∧ i ≤ t := by
  have hjp : jsOrNat (some p) 1 = p := by
    simp only [jsOrNat]
    rw [if_neg (by omega)]
  have hjt : jsOrNat (some t) 1 = t := by
    simp only [jsOrNat]
    rw [if_neg (by omega)]
  have hgen : generatePageNumbers (some p) (some t)
      = List.range' (max 1 (p - 2)) (min t (p + 2) + 1 - max 1 (p - 2)) := by
    simp only [generatePageNumbers, hjp, hjt, pagesLoop_eq]
  have hmem : ∀ i, i ∈ generatePageNumbers (some p) (some t) ↔
      max 1 (p - 2) ≤ i ∧ i ≤ min t (p + 2) := by
    intro i
    rw [hgen, List.mem_range'_1]
    omega
  refine ⟨hgen, hmem, ?_, ?_, ?_⟩
  · intro hnil
    have := (hmem p).mpr (by omega)
    rw [hnil] at this
    exact (List.not_mem_nil p) this
  · rw [hgen]
    have := List.length_range' (max 1 (p - 2)) 1 (min t (p + 2) + 1 - max 1 (p - 2))
    simp only [this]
    omega
  · intro i hi
    have := (hmem i).mp hi
    omega

theorem generatePageNumbers_consecutive_witness :
    generatePageNumbers (some 2) (some 3) ≠ []
    ∧ (generatePageNumbers (some 2) (some 3)).length ≤ 5 :=
  ⟨(generatePageNumbers_consecutive 2 3 (by decide) (by decide) (by decide)).2.2.1,
   (generatePageNumbers_consecutive 2 3 (by decide) (by decide) (by decide)).2.2.2.1⟩

/-- C8: `api.getProcessedData` returns `totalPages` equal to the ceiling of
`total / limit` where `limit` is `params.limit` or the default 10 and `total`
is the response's total field or 0; the returned `page` is `params.page` or the
default 1, and the returned `data` is the response's data array or `[]`. -/
theorem getProcessedData_spec {α : Type} (params : ApiParams)
    (resp : UpstreamResponse α) :
    (((getProcessedData params resp).totalPages : ℤ)
        = Int.ceil ((jsOrNat resp.total 0 : ℚ) / (jsOrNat params.limit 10 : ℚ)))
    ∧ (getProcessedData params resp).page = jsOrNat params.page 1
    ∧ (getProcessedData params resp).data = resp.rows.getD []
    ∧ (getProcessedData params resp).total = jsOrNat resp.total 0
    ∧ (getProcessedData params resp).limit = jsOrNat params.limit 10 := by
  refine ⟨?_, rfl, rfl, rfl, rfl⟩
  show ((jsCeilDiv (jsOrNat resp.total 0) (jsOrNat params.limit 10) : Nat) : ℤ) = _
  unfold jsCeilDiv
  refine Int.toNat_of_nonneg (Int.ceil_nonneg (div_nonneg ?_ ?_))
  · exact Nat.cast_nonneg _
  · exact Nat.cast_nonneg _

/- ### `src/components/dashboard/charts.tsx` (MetricsCards) -/

/-- One `ProcessedData` row as consumed by `MetricsCards`: the engagement
counters pass through JavaScript `Number(...)`, so each is either a number or
uncoercible (`none`, which `Number(x) || 0` turns into 0). -/
structure DashboardItem where
  user_id : String
  likes : Option Int
  comments : Option Int
  shares : Option Int
  total_sales_attributed : Option Int
deriving DecidableEq

/-- The four metric values `MetricsCards` renders when it has data. -/
structure MetricsSummaryView where
  totalEngagement : Int
  totalSales : Int
  uniqueUsers : Nat
  avgEngagement : ℚ
deriving DecidableEq

/-- The metric computation of `MetricsCards`: for an empty (or absent) list the
component renders the static No-Data cards and computes nothing (`none`);
otherwise `totalEngagement` and `totalSales` are `reduce` folds over
`Number(x) || 0` coercions, `uniqueUsers` is the size of the `Set` of truthy
`user_id` values, and `avgEngagement` divides by the length (guarded). -/
def metricsOf (rows : List DashboardItem) : Option MetricsSummaryView :=
  if rows = [] then none
  else
    let totalEngagement := rows.foldl
      (fun sum item => sum + jsNum item.likes + jsNum item.comments + jsNum item.shares) 0
    let totalSales := rows.foldl
      (fun sum item => sum + jsNum item.total_sales_attributed) 0
    let uniqueUsers := ((rows.map (·.user_id)).filter (fun s => s ≠ "")).dedup.length
    let avgEngagement : ℚ :=
      if 0 < rows.length then (totalEngagement : ℚ) / (rows.length : ℚ) else 0
    some ⟨totalEngagement, totalSales, uniqueUsers, avgEngagement⟩

theorem foldl_add_eq_sum {α : Type} (f : α → Int) :
    ∀ (l : List α) (init : Int), l.foldl (fun s x => s + f x) init = init + (l.map f).sum := by
  intro l
  induction l with
  | nil => intro init; simp
  | cons a l ih =>
    intro init
    simp only [List.foldl_cons, List.map_cons, List.sum_cons, ih]
    ring

/-- C9: for every non-empty list of rows, `MetricsCards` computes
`totalEngagement` as the sum over rows of `Number(likes) + Number(comments) +
Number(shares)` with non-numeric counters contributing 0, `uniqueUsers` as the
number of distinct truthy `user_id` values, and `avgEngagement` as
`totalEngagement` divided by the number of rows; for an empty list it computes
no metrics. -/
theorem metricsCards_spec (rows : List DashboardItem) (h : rows ≠ []) :
    metricsOf [] = none
    ∧ ∃ m, metricsOf rows = some m
        ∧ m.totalEngagement =
            (rows.map (fun it => jsNum it.likes + jsNum it.comments + jsNum it.shares)).sum
        ∧ m.uniqueUsers = ((rows.map (·.user_id)).filter (fun s => s ≠ "")).dedup.length
        ∧ m.avgEngagement = (m.totalEngagement : ℚ) / (rows.length : ℚ) := by
  refine ⟨rfl, ?_⟩
  have hfun : (fun (sum : Int) (item : DashboardItem) =>
      sum + jsNum item.likes + jsNum item.comments + jsNum item.shares)
      = (fun sum item =>
          sum + (jsNum item.likes + jsNum item.comments + jsNum item.shares)) := by
    funext s it
    ring
  have hlen : 0 < rows.length := List.length_pos.mpr h
  simp only [metricsOf, if_neg h]
  refine ⟨_, rfl, ?_, rfl, ?_⟩
  · dsimp only
    rw [hfun, foldl_add_eq_sum, zero_add]
  · dsimp only
    rw [if_pos hlen, hfun, foldl_add_eq_sum, zero_add]

theorem metricsCards_spec_witness :
    ∃ m, metricsOf [⟨"u1", some 5, none, some 3, some 2⟩] = some m
        ∧ m.totalEngagement = 8 ∧ m.uniqueUsers = 1 ∧ m.avgEngagement = 8 := by
  obtain ⟨m, hm, he, hu, ha⟩ :=
    (metricsCards_spec [⟨"u1", some 5, none, some 3, some 2⟩]
      (List.cons_ne_nil _ _)).2
  refine ⟨m, hm, ?_, ?_, ?_⟩
  · rw [he]; rfl
  · rw [hu]; rfl
  · rw [ha, he]; norm_num [jsNum]

/- ### `uploader.py` SchemaManager: the DDL embedded in the README -/

/-- The column list of the `CREATE TABLE IF NOT EXISTS processed_data`
statement embedded in the repository README (the only schema artifact in the
checkout); it ends at `joined_at` and carries no `source_file` column. -/
def processedDataColumns : List String :=
  ["user_id", "name", "email", "platform", "program_id", "brand",
   "tasks_completed", "total_likes", "total_comments", "total_shares",
   "total_reach", "total_sales_attributed", "joined_at"]

/-- `ensureSchema`: the destination is `none` (table absent) or `some cols`
(table present with columns `cols`); `CREATE TABLE IF NOT EXISTS` creates the
table with `processedDataColumns` when absent and leaves it untouched when
present. -/
def ensureSchema (dest : Option (List String)) : Option (List String) :=
  match dest with
  | none => some processedDataColumns
  | some cols => some cols

/-- C5 counterexample: the destination table ensured by the repository's
`CREATE TABLE IF NOT EXISTS processed_data` DDL does not contain the claimed
`source_file` column (its last column is `joined_at`). -/
theorem ensureSchema_no_source_file :
    ensureSchema none = some processedDataColumns
    ∧ "source_file" ∉ processedDataColumns
    ∧ "joined_at" ∈ processedDataColumns := by
  refine ⟨rfl, ?_, ?_⟩ <;> decide

/-- C5 (amended): `ensureSchema` is idempotent — it creates the table when
absent and leaves an already-created destination unchanged — and the table it
creates has exactly the thirteen columns `user_id` through `joined_at` of the
README DDL (without `source_file`). -/
theorem ensureSchema_idempotent_columns :
    (∀ dest, ensureSchema (ensureSchema dest) = ensureSchema dest)
    ∧ (∀ cols, ensureSchema (some cols) = some cols)
    ∧ ensureSchema none = some ["user_id", "name", "email", "platform",
        "program_id", "brand", "tasks_completed", "total_likes",
        "total_comments", "total_shares", "total_reach",
        "total_sales_attributed", "joined_at"] := by
  refine ⟨?_, fun cols => rfl, rfl⟩
  intro dest
  cases dest <;> rfl

/- ### `normalise_data_panda.py` Validator: `clean_numeric_value` -/

/-- A loosely-typed raw JSON scalar as read from a source document: a number,
a string, or null/absent. -/
inductive RawValue where
  | num (n : Nat)
  | str (s : String)
  | null
deriving DecidableEq

/-- Decimal value of a digit character, `none` for a non-digit. -/
def digitVal (c : Char) : Option Nat :=
  if c.isDigit then some (c.toNat - 48) else none

/-- Left-to-right accumulation of a decimal literal; fails on any non-digit. -/
def parseDigitsAux : List Char → Nat → Option Nat
  | [], acc => some acc
  | c :: cs, acc =>
    match digitVal c with
    | some d => parseDigitsAux cs (10 * acc + d)
    | none => none

/-- Modelled from the spec: the numeric-string coercion inside
`clean_numeric_value` of the missing `normalise_data_panda.py` — strips
thousands separators and parses the remaining decimal digits, failing on
anything uncoercible. -/
def parseNumericString (s : String) : Option Nat :=
  let cs := s.data.filter (fun c => c ≠ ',')
  if cs.isEmpty then none else parseDigitsAux cs 0

/-- Modelled from the spec: `clean_numeric_value` of the missing
`normalise_data_panda.py` — coerces numeric-looking strings (including
thousands separators) to a number `≥ 0`; anything uncoercible yields 0
together with a non-fatal warning (the returned flag), never an exception. -/
def cleanNumericValue : RawValue → Int × Bool
  | .num n => ((n : Int), false)
  | .str s =>
    match parseNumericString s with
    | some n => ((n : Int), false)
    | none => (0, true)
  | .null => (0, true)

/-- C6: `cleanNumericValue` is total and returns a number `≥ 0` on every
input; whenever it raises its warning flag the returned value is 0;
the string with a thousands separator coerces
to its numeric value, and an uncoercible string yields 0 with a warning. -/
theorem cleanNumericValue_spec :
    (∀ v, 0 ≤ (cleanNumericValue v).1)
    ∧ (∀ v, (cleanNumericValue v).2 = true → (cleanNumericValue v).1 = 0)
    ∧ cleanNumericValue (.str "1,234") = (1234, false)
    ∧ cleanNumericValue (.str "abc") = (0, true) := by
  refine ⟨?_, ?_, by decide, by decide⟩
  · intro v
    match v with
    | .num n => exact Int.natCast_nonneg n
    | .null => decide
    | .str s =>
      simp only [cleanNumericValue]
      split
      · exact Int.natCast_nonneg _
      · decide
  · intro v
    match v with
    | .num n => intro h; cases h
    | .null => intro _; rfl
    | .str s =>
      simp only [cleanNumericValue]
      split
      · intro h; cases h
      · intro _; rfl

theorem cleanNumericValue_spec_witness :
    (cleanNumericValue .null).2 = true ∧ (cleanNumericValue .null).1 = 0 :=
  ⟨by decide, cleanNumericValue_spec.2.1 .null (by decide)⟩

/- ### `uploader.py` BatchUploader -/

/-- The chunking loop of `upload_in_batches` embedded in the README:
`for i in range(0, len(data), batch_size): batch = data[i:i + batch_size]`,
collecting the successive slices. (A zero step raises in Python; the model
returns no batches for `bs = 0`, a case never reached by the default 1000.) -/
def batches {α : Type} (bs : Nat) : List α → List (List α)
  | [] => []
  | x :: xs =>
    if bs = 0 then []
    else (x :: xs).take bs :: batches bs ((x :: xs).drop bs)
termination_by l => l.length
decreasing_by
  simp only [List.length_drop, List.length_cons]
  omega

theorem batches_nil {α : Type} (bs : Nat) : batches bs ([] : List α) = [] := by
  simp only [batches]

theorem batches_cons {α : Type} (bs : Nat) (l : List α) (hl : l ≠ []) (hbs : bs ≠ 0) :
    batches bs l = l.take bs :: batches bs (l.drop bs) := by
  match l with
  | [] => exact absurd rfl hl
  | x :: xs =>
    rw [batches]
    rw [if_neg hbs]

/-- Modelled from the spec: the transactional commit loop of the missing
`uploader.py`. Each batch is committed inside one transaction (`ok b = true`):
its rows are appended to the committed output and the next batch starts. A
constraint violation inside a batch (`ok b = false`) rolls the whole batch
back — it contributes no rows — and the run halts before any later batch is
attempted. Returns (rows committed, batches attempted). -/
def runBatches {α : Type} (ok : List α → Bool) : List (List α) → List α × List (List α)
  | [] => ([], [])
  | b :: rest =>
    if ok b then
      let r := runBatches ok rest
      (b ++ r.1, b :: r.2)
    else ([], [b])

/-- C2: 2500 rows with batch size 1000 are partitioned into exactly the three
contiguous batches of sizes 1000, 1000 and 500, in order; if a constraint
violation occurs inside the second batch, the whole second batch is rolled
back, the 1000 rows of the first batch remain committed, and the third batch
is never attempted (exactly the first two batches are attempted). -/
theorem upload_in_batches_c2 {α : Type} (rows : List α) (ok : List α → Bool)
    (hlen : rows.length = 2500)
    (h1 : ok (rows.take 1000) = true)
    (h2 : ok ((rows.drop 1000).take 1000) = false) :
    batches 1000 rows = [rows.take 1000, (rows.drop 1000).take 1000, rows.drop 2000]
    ∧ (batches 1000 rows).map List.length = [1000, 1000, 500]
    ∧ runBatches ok (batches 1000 rows)
        = (rows.take 1000, [rows.take 1000, (rows.drop 1000).take 1000])
    ∧ (runBatches ok (batches 1000 rows)).2.length = 2 := by
  have hne : rows ≠ [] := by
    intro hn
    rw [hn] at hlen
    simp at hlen
  have hd1 : (rows.drop 1000).length = 1500 := by
    simp [hlen]
  have hd2 : (rows.drop 2000).length = 500 := by
    simp [hlen]
  have hdd : (rows.drop 1000).drop 1000 = rows.drop 2000 := by
    rw [List.drop_drop]
  have hne1 : rows.drop 1000 ≠ [] := by
    intro hn
    rw [hn] at hd1
    simp at hd1
  have hne2 : rows.drop 2000 ≠ [] := by
    intro hn
    rw [hn] at hd2
    simp at hd2
  have ht2 : (rows.drop 2000).take 1000 = rows.drop 2000 :=
    List.take_of_length_le (by omega)
  have hdn : (rows.drop 2000).drop 1000 = [] :=
    List.drop_eq_nil_of_le (by omega)
  have hb : batches 1000 rows
      = [rows.take 1000, (rows.drop 1000).take 1000, rows.drop 2000] := by
    rw [batches_cons 1000 rows hne (by omega),
        batches_cons 1000 (rows.drop 1000) hne1 (by omega), hdd,
        batches_cons 1000 (rows.drop 2000) hne2 (by omega), ht2, hdn, batches_nil]
  refine ⟨hb, ?_, ?_, ?_⟩
  · rw [hb]
    simp [List.length_take, hlen, hd1, hd2]
  · rw [hb]
    simp only [runBatches, h1, h2, if_true, if_false, Bool.false_eq_true]
    simp
  · rw [hb]
    simp only [runBatches, h1, h2, if_true, if_false, Bool.false_eq_true]
    simp

theorem range'_drop : ∀ (n m s : Nat), (List.range' s n).drop m = List.range' (s + m) (n - m) := by
  intro n
  induction n with
  | zero =>
    intro m s
    simp
  | succ n ih =>
    intro m s
    cases m with
    | zero => simp
    | succ m =>
      rw [List.range'_succ, List.drop_succ_cons, ih m (s + 1)]
      congr 1 <;> omega

theorem range'_take : ∀ (n m s : Nat), (List.range' s n).take m = List.range' s (min m n) := by
  intro n
  induction n with
  | zero =>
    intro m s
    simp
  | succ n ih =>
    intro m s
    cases m with
    | zero => simp
    | succ m =>
      rw [List.range'_succ, List.take_succ_cons, ih m (s + 1),
          show min (m + 1) (n + 1) = min m n + 1 by omega, List.range'_succ]

theorem upload_in_batches_c2_witness :
    batches 1000 (List.range 2500)
        = [(List.range 2500).take 1000, ((List.range 2500).drop 1000).take 1000,
           (List.range 2500).drop 2000]
    ∧ (batches 1000 (List.range 2500)).map List.length = [1000, 1000, 500] := by
  have hb2 : ((List.range 2500).drop 1000).take 1000 = List.range' 1000 1000 := by
    rw [List.range_eq_range', range'_drop, range'_take]
    norm_num
  have h := upload_in_batches_c2 (List.range 2500)
    (fun b => ! b.contains 1500) (by simp)
    (by simp [List.take_range, List.mem_range])
    (by simp [hb2, List.mem_range'_1])
  exact ⟨h.1, h.2.1⟩

/- ### Destination rows and duplicate avoidance -/

/-- The `NormalizedRecord` of §3: the unit of storage written by the uploader
(spec column set; engagement counters as cleaned integers). -/
structure NormalizedRecord where
  user_id : String
  name : String
  email : String
  platform : String
  program_id : String
  brand : String
  tasks_completed : Nat
  total_likes : Int
  total_comments : Int
  total_shares : Int
  total_reach : Int
  total_sales_attributed : Int
  joined_at : String
  source_file : String
deriving DecidableEq

/-- The composite deduplication key
`(user_id, program_id, platform, source_file)`. -/
def dedupKey (r : NormalizedRecord) : String × String × String × String :=
  (r.user_id, r.program_id, r.platform, r.source_file)

/-- Modelled from the spec: the duplicate-avoidance insert of the missing
`uploader.py` — a row whose composite key is already present in the
destination is skipped rather than re-inserted; otherwise it is appended. -/
def insertRow (db : List NormalizedRecord) (r : NormalizedRecord) :
    List NormalizedRecord :=
  if ∃ r2 ∈ db, dedupKey r2 = dedupKey r then db else db ++ [r]

/-- Modelled from the spec: uploading a run's normalized rows into the
destination, row by row in order, with duplicate avoidance. -/
def uploadRows (db rows : List NormalizedRecord) : List NormalizedRecord :=
  rows.foldl insertRow db

theorem insertRow_of_mem {db : List NormalizedRecord} {r : NormalizedRecord}
    (h : ∃ r2 ∈ db, dedupKey r2 = dedupKey r) : insertRow db r = db := by
  rw [insertRow, if_pos h]

theorem mem_insertRow {db : List NormalizedRecord} {r a : NormalizedRecord}
    (h : a ∈ db) : a ∈ insertRow db r := by
  rw [insertRow]
  split
  · exact h
  · exact List.mem_append_left _ h

theorem mem_uploadRows {a : NormalizedRecord} :
    ∀ (rows db : List NormalizedRecord), a ∈ db → a ∈ uploadRows db rows := by
  intro rows
  induction rows with
  | nil => intro db h; exact h
  | cons r0 rest ih =>
    intro db h
    show a ∈ (rest.foldl insertRow (insertRow db r0))
    exact ih (insertRow db r0) (mem_insertRow h)

theorem dedupKey_covered :
    ∀ (rows db : List NormalizedRecord) (r : NormalizedRecord), r ∈ rows →
      ∃ r2 ∈ uploadRows db rows, dedupKey r2 = dedupKey r := by
  intro rows
  induction rows with
  | nil => intro db r h; cases h
  | cons r0 rest ih =>
    intro db r h
    rcases List.mem_cons.mp h with heq | hr
    · rw [heq]
      have hins : ∃ r2 ∈ insertRow db r0, dedupKey r2 = dedupKey r0 := by
        rw [insertRow]
        split
        · assumption
        · exact ⟨r0, List.mem_append_right _ (List.mem_singleton.mpr rfl), rfl⟩
      obtain ⟨r2, hr2, hk⟩ := hins
      exact ⟨r2, mem_uploadRows rest (insertRow db r0) hr2, hk⟩
    · exact ih (insertRow db r0) r hr

theorem uploadRows_of_covered :
    ∀ (rows db : List NormalizedRecord),
      (∀ r ∈ rows, ∃ r2 ∈ db, dedupKey r2 = dedupKey r) → uploadRows db rows = db := by
  intro rows
  induction rows with
  | nil => intro db _; rfl
  | cons r0 rest ih =>
    intro db h
    show rest.foldl insertRow (insertRow db r0) = db
    rw [insertRow_of_mem (h r0 (List.mem_cons_self r0 rest))]
    exact ih db (fun r hr => h r (List.mem_cons_of_mem r0 hr))

/-- C3: re-uploading the same normalized rows a second time inserts zero
additional rows — every row is already present under its composite key
`(user_id, program_id, platform, source_file)` and is skipped rather than
re-inserted — so the destination is a fixed point of the re-run, and in
particular the row count does not change. -/
theorem uploadRows_idempotent (db rows : List NormalizedRecord) :
    uploadRows (uploadRows db rows) rows = uploadRows db rows
    ∧ (uploadRows (uploadRows db rows) rows).length = (uploadRows db rows).length := by
  have h : uploadRows (uploadRows db rows) rows = uploadRows db rows :=
    uploadRows_of_covered rows (uploadRows db rows)
      (fun r hr => dedupKey_covered rows db r hr)
  exact ⟨h, by rw [h]⟩

/- ### FileStateTracker -/

/-- Modelled from the spec: full mode of the missing `uploader.py` file
selection — every file in the directory (given by its filename sequence
index), ordered by sequence index; ties and gaps are preserved. -/
def selectFull (dir : List Nat) : List Nat :=
  List.insertionSort (· ≤ ·) dir

/-- The destination's maximum processed sequence index, read off the
`source_file` lineage column (0 for an empty destination, a case the caller
separates out). -/
def maxSeq (dest : List Nat) : Nat :=
  dest.foldr max 0

/-- Modelled from the spec: incremental mode of the missing `uploader.py` file
selection — if the destination is empty behave as full mode, otherwise select
exactly the files whose sequence index is strictly greater than the
destination's maximum processed index, in ascending order. -/
def selectIncremental (dir dest : List Nat) : List Nat :=
  if dest = [] then selectFull dir
  else (selectFull dir).filter (fun i => maxSeq dest < i)

/-- C4: with a non-empty destination, incremental selection returns exactly
the directory files with sequence index strictly greater than the
destination's maximum processed index (same multiset as filtering the
directory), in ascending order; with an empty destination it returns exactly
what full mode returns, which is the whole directory in ascending order. -/
theorem selectIncremental_spec (dir dest : List Nat) (hne : dest ≠ []) :
    selectIncremental dir [] = selectFull dir
    ∧ (∀ i, i ∈ selectIncremental dir dest ↔ i ∈ dir ∧ maxSeq dest < i)
    ∧ (selectIncremental dir dest).Sorted (· ≤ ·)
    ∧ List.Perm (selectIncremental dir dest) (dir.filter (fun i => maxSeq dest < i))
    ∧ (selectFull dir).Sorted (· ≤ ·)
    ∧ List.Perm (selectFull dir) dir := by
  have hsel : selectIncremental dir dest
      = (selectFull dir).filter (fun i => maxSeq dest < i) := by
    rw [selectIncremental, if_neg hne]
  refine ⟨by rw [selectIncremental, if_pos rfl], ?_, ?_, ?_, ?_, ?_⟩
  · intro i
    rw [hsel, List.mem_filter]
    constructor
    · rintro ⟨hmem, hlt⟩
      exact ⟨(List.perm_insertionSort _ dir).mem_iff.mp hmem, by simpa using hlt⟩
    · rintro ⟨hmem, hlt⟩
      exact ⟨(List.perm_insertionSort _ dir).mem_iff.mpr hmem, by simpa using hlt⟩
  · rw [hsel]
    exact (List.sorted_insertionSort _ dir).filter _
  · rw [hsel]
    exact (List.perm_insertionSort _ dir).filter _
  · exact List.sorted_insertionSort _ dir
  · exact List.perm_insertionSort _ dir

theorem selectIncremental_spec_witness :
    selectIncremental [3, 1, 5] [] = selectFull [3, 1, 5]
    ∧ (5 ∈ selectIncremental [3, 1, 5, 7] [2, 4] ↔ 5 ∈ [3, 1, 5, 7] ∧ maxSeq [2, 4] < 5) :=
  ⟨(selectIncremental_spec [3, 1, 5] [2, 4] (by decide)).1,
   (selectIncremental_spec [3, 1, 5, 7] [2, 4] (by decide)).2.1 5⟩

/- ### `normalise_data_panda.py` Validator and Normalizer -/

/-- Splitting a character list at a separator (the groups between
separators, in order). -/
def splitOnChar (sep : Char) : List Char → List (List Char)
  | [] => [[]]
  | c :: cs =>
    let r := splitOnChar sep cs
    if c = sep then [] :: r
    else
      match r with
      | [] => [[c]]
      | g :: gs => (c :: g) :: gs

/-- Modelled from the spec: `validate_email` of the missing
`normalise_data_panda.py` — a regex-style well-formedness check: exactly one
at-sign with a non-empty local part and a non-empty domain containing a dot. -/
def validateEmail (s : String) : Bool :=
  match splitOnChar '@' s.data with
  | [lp, dom] => !lp.isEmpty && !dom.isEmpty && dom.contains '.'
  | _ => false

/-- Modelled from the spec: `validate_date` of the missing
`normalise_data_panda.py` — accepts an ISO `YYYY-MM-DD` date (kept as is) or a
`DD/MM/YYYY` date (normalized to ISO); anything else is a field-level
failure (`none`), not a record-level one. -/
def validateDate (s : String) : Option String :=
  match splitOnChar '-' s.data with
  | [y, m, d] =>
    if y.length = 4 && m.length = 2 && d.length = 2
        && (y ++ m ++ d).all (·.isDigit) then some s else none
  | _ =>
    match splitOnChar '/' s.data with
    | [d, m, y] =>
      if d.length = 2 && m.length = 2 && y.length = 4
          && (d ++ m ++ y).all (·.isDigit) then
        some ((y ++ ['-'] ++ m ++ ['-'] ++ d).asString)
      else none
    | _ => none

/-- Modelled from the spec: `validate_url` of the missing
`normalise_data_panda.py` — checks scheme and host presence. -/
def validateUrl (s : String) : Bool :=
  (s.startsWith "http://" && 7 < s.length) || (s.startsWith "https://" && 8 < s.length)

/-- Modelled from the spec: `validate_social_handle` of the missing
`normalise_data_panda.py` — strips characters outside the platform's allowed
charset; empty result if nothing survives. -/
def validateSocialHandle (_platform raw : String) : String :=
  (raw.data.filter (fun c => c.isAlphanum || c = '_' || c = '.')).asString

/-- One completed task of a raw per-user document: a platform tag (possibly
absent), the program it was completed for (with the program's brand), raw
engagement counters and an attributed-sales value, all loosely typed. -/
structure RawTask where
  platform : Option String
  program_id : String
  brand : String
  likes : RawValue
  comments : RawValue
  shares : RawValue
  reach : RawValue
  sales_attributed : RawValue
deriving DecidableEq

/-- A raw per-user document (§3): identity fields, membership data and the
list of completed tasks; produced externally, loosely shaped. -/
structure RawUserDocument where
  user_id : Option String
  name : Option String
  email : Option String
  joined_at : Option String
  tasks : List RawTask
deriving DecidableEq

/-- One task flattened together with its document's validated identity
fields: the intermediate row the Normalizer groups and sums. -/
structure FlatRecord where
  user_id : String
  platform : String
  program_id : String
  brand : String
  name : String
  email : String
  joined_at : String
  likes : Int
  comments : Int
  shares : Int
  reach : Int
  sales : Int
deriving DecidableEq

/-- The flattened record produced for a task whose mandatory identifiers are
present: identity fields are copied through with per-field defaulting
(`getD ""`, date normalization), counters through `cleanNumericValue`. -/
def flatOf (doc : RawUserDocument) (uid plat : String) (t : RawTask) : FlatRecord :=
  { user_id := uid
    platform := plat
    program_id := t.program_id
    brand := t.brand
    name := doc.name.getD ""
    email := doc.email.getD ""
    joined_at := (doc.joined_at.bind validateDate).getD ""
    likes := (cleanNumericValue t.likes).1
    comments := (cleanNumericValue t.comments).1
    shares := (cleanNumericValue t.shares).1
    reach := (cleanNumericValue t.reach).1
    sales := (cleanNumericValue t.sales_attributed).1 }

/-- The non-fatal warnings logged while flattening one kept task: one per
field-level validation failure. -/
def taskWarnings (doc : RawUserDocument) (t : RawTask) : List String :=
  (if (cleanNumericValue t.likes).2 then ["ValidationError: likes"] else [])
  ++ (if (cleanNumericValue t.comments).2 then ["ValidationError: comments"] else [])
  ++ (if (cleanNumericValue t.shares).2 then ["ValidationError: shares"] else [])
  ++ (if (cleanNumericValue t.reach).2 then ["ValidationError: reach"] else [])
  ++ (if (cleanNumericValue t.sales_attributed).2 then ["ValidationError: sales_attributed"] else [])
  ++ (if validateEmail (doc.email.getD "") then [] else ["ValidationError: email"])
  ++ (if (doc.joined_at.bind validateDate).isSome then [] else ["ValidationError: joined_at"])

/-- Modelled from the spec: validation of one task of a raw document in the
missing `normalise_data_panda.py`. A missing mandatory identifier (`user_id`
on the document, `platform` on the task) drops the record with a logged
`RecordSkipError`; otherwise the record is kept — every field-level failure
only substitutes a default and logs a warning. Returns the kept record (or
`none`) together with the logged messages. -/
def normalizeTask (doc : RawUserDocument) (t : RawTask) :
    Option FlatRecord × List String :=
  match doc.user_id, t.platform with
  | none, _ => (none, ["RecordSkipError: missing user_id"])
  | some _, none => (none, ["RecordSkipError: missing platform"])
  | some uid, some plat => (some (flatOf doc uid plat t), taskWarnings doc t)

/-- The flattening stage of the Normalizer: every kept task of the document,
in document order. -/
def flattenDoc (doc : RawUserDocument) : List FlatRecord :=
  doc.tasks.filterMap (fun t => (normalizeTask doc t).1)

/-- The grouping key `(user_id, program_id, platform)`. -/
def groupKey (f : FlatRecord) : String × String × String :=
  (f.user_id, f.program_id, f.platform)

/-- First-encounter deduplication: the distinct elements of a list in the
insertion order of their first occurrence. -/
def uniqueKeys {κ : Type} [DecidableEq κ] (l : List κ) : List κ :=
  l.foldl (fun acc k => if k ∈ acc then acc else acc ++ [k]) []

/-- The aggregated record emitted for one `(user_id, program_id, platform)`
group: counters and sales are summed over the group, `tasks_completed` is the
group's size, identity/brand fields are copied through, and `source_file` is
stamped for lineage. -/
def buildRecord (src : String) (doc : RawUserDocument) (flats : List FlatRecord)
    (k : String × String × String) : NormalizedRecord :=
  let g := flats.filter (fun f2 => groupKey f2 = k)
  { user_id := k.1
    name := doc.name.getD ""
    email := doc.email.getD ""
    platform := k.2.2
    program_id := k.2.1
    brand := ((g.head?).map (·.brand)).getD ""
    tasks_completed := g.length
    total_likes := (g.map (·.likes)).sum
    total_comments := (g.map (·.comments)).sum
    total_shares := (g.map (·.shares)).sum
    total_reach := (g.map (·.reach)).sum
    total_sales_attributed := (g.map (·.sales)).sum
    joined_at := (doc.joined_at.bind validateDate).getD ""
    source_file := src }

/-- Modelled from the spec: the Normalizer of the missing
`normalise_data_panda.py` (§4.2) — flatten the task list, group by
`(program_id, platform)` within the document (hence by
`(user_id, program_id, platform)` overall), emit one aggregated record per
non-empty group in first-encounter order, stamping `source_file`. -/
def normalizeDoc (src : String) (doc : RawUserDocument) : List NormalizedRecord :=
  let flats := flattenDoc doc
  (uniqueKeys (flats.map groupKey)).map (buildRecord src doc flats)

/-- C7: a record is dropped (with a logged `RecordSkipError`) if and only if a
mandatory identifier — the document's `user_id` or the task's `platform` — is
absent; when both are present the record is kept with per-field defaults and
the field-level warnings, and a dropped record is always logged (never a
silent abort). -/
theorem normalizeTask_skip_iff (doc : RawUserDocument) (t : RawTask) :
    ((normalizeTask doc t).1 = none ↔ doc.user_id = none ∨ t.platform = none)
    ∧ (∀ uid plat, doc.user_id = some uid → t.platform = some plat →
        normalizeTask doc t = (some (flatOf doc uid plat t), taskWarnings doc t))
    ∧ (doc.user_id = none →
        (normalizeTask doc t).2 = ["RecordSkipError: missing user_id"])
    ∧ (∀ uid, doc.user_id = some uid → t.platform = none →
        (normalizeTask doc t).2 = ["RecordSkipError: missing platform"])
    ∧ ((normalizeTask doc t).1 = none → (normalizeTask doc t).2 ≠ []) := by
  cases hu : doc.user_id with
  | none =>
    refine ⟨by simp [normalizeTask, hu], ?_, ?_, ?_, ?_⟩
    · intro uid plat huid _
      simp at huid
    · intro _
      simp [normalizeTask, hu]
    · intro uid huid _
      simp at huid
    · intro _
      simp [normalizeTask, hu]
  | some uid0 =>
    cases ht : t.platform with
    | none =>
      refine ⟨by simp [normalizeTask, hu, ht], ?_, ?_, ?_, ?_⟩
      · intro uid plat _ hplat
        simp at hplat
      · intro hnone
        simp at hnone
      · intro uid _ _
        simp [normalizeTask, hu, ht]
      · intro _
        simp [normalizeTask, hu, ht]
    | some p0 =>
      refine ⟨by simp [normalizeTask, hu, ht], ?_, ?_, ?_, ?_⟩
      · intro uid plat huid hplat
        injection huid with h1
        injection hplat with h2
        subst h1
        subst h2
        simp [normalizeTask, hu, ht]
      · intro hnone
        simp at hnone
      · intro uid _ hplat
        simp at hplat
      · intro hnone
        simp [normalizeTask, hu, ht] at hnone

/-- Concrete task used by the normalizer witnesses. -/
def taskW : RawTask :=
  { platform := some "instagram", program_id := "p1", brand := "BrandA",
    likes := .num 3, comments := .str "1,2", shares := .null,
    reach := .num 7, sales_attributed := .num 2 }

/-- Concrete well-formed document used by the normalizer witnesses. -/
def docW : RawUserDocument :=
  { user_id := some "u1", name := some "Ada", email := some "ada@example.com",
    joined_at := some "2024-01-02", tasks := [taskW] }

/-- Concrete document missing its mandatory `user_id`. -/
def docNoUid : RawUserDocument :=
  { user_id := none, name := none, email := none, joined_at := none,
    tasks := [taskW] }

theorem normalizeTask_skip_iff_witness :
    (normalizeTask docNoUid taskW).1 = none
    ∧ normalizeTask docW taskW
        = (some (flatOf docW "u1" "instagram" taskW), taskWarnings docW taskW) :=
  ⟨(normalizeTask_skip_iff docNoUid taskW).1.mpr (Or.inl rfl),
   (normalizeTask_skip_iff docW taskW).2.1 "u1" "instagram" rfl rfl⟩

theorem cleanNumericValue_nonneg (v : RawValue) : 0 ≤ (cleanNumericValue v).1 := by
  match v with
  | .num n => exact Int.natCast_nonneg n
  | .null => decide
  | .str s =>
    simp only [cleanNumericValue]
    split
    · exact Int.natCast_nonneg _
    · decide

theorem mem_of_foldl_dedup {κ : Type} [DecidableEq κ] :
    ∀ (l acc : List κ) (x : κ),
      x ∈ l.foldl (fun acc k => if k ∈ acc then acc else acc ++ [k]) acc →
      x ∈ acc ∨ x ∈ l := by
  intro l
  induction l with
  | nil =>
    intro acc x h
    exact Or.inl h
  | cons k ks ih =>
    intro acc x h
    rcases ih _ x h with hacc | hks
    · dsimp only at hacc
      by_cases hk : k ∈ acc
      · rw [if_pos hk] at hacc
        exact Or.inl hacc
      · rw [if_neg hk] at hacc
        rcases List.mem_append.mp hacc with h1 | h2
        · exact Or.inl h1
        · exact Or.inr (List.mem_cons.mpr (Or.inl (List.mem_singleton.mp h2)))
    · exact Or.inr (List.mem_cons_of_mem _ hks)

theorem mem_of_mem_uniqueKeys {κ : Type} [DecidableEq κ] {l : List κ} {x : κ}
    (h : x ∈ uniqueKeys l) : x ∈ l :=
  (mem_of_foldl_dedup l [] x h).resolve_left (List.not_mem_nil x)

theorem user_id_of_mem_flattenDoc {doc : RawUserDocument} {f : FlatRecord}
    (hf : f ∈ flattenDoc doc) : doc.user_id = some f.user_id := by
  obtain ⟨t, htm, hnt⟩ := List.mem_filterMap.mp hf
  cases hu : doc.user_id with
  | none => simp [normalizeTask, hu] at hnt
  | some uid =>
    cases ht : t.platform with
    | none => simp [normalizeTask, hu, ht] at hnt
    | some p =>
      simp only [normalizeTask, hu, ht] at hnt
      injection hnt with h2
      rw [← h2]
      rfl

theorem flattenDoc_filter (doc : RawUserDocument) (uid : String)
    (h : doc.user_id = some uid) (pid plat : String) :
    (flattenDoc doc).filter (fun f2 => groupKey f2 = (uid, pid, plat))
      = (doc.tasks.filter
          (fun t => t.program_id = pid ∧ t.platform = some plat)).map
            (flatOf doc uid plat) := by
  show (doc.tasks.filterMap (fun t => (normalizeTask doc t).1)).filter _ = _
  induction doc.tasks with
  | nil => rfl
  | cons t ts ih =>
    cases ht : t.platform with
    | none =>
      have hnt : (normalizeTask doc t).1 = none := by
        simp [normalizeTask, h, ht]
      simp [List.filterMap_cons, hnt, List.filter_cons, ht, ih]
    | some p =>
      have hnt : (normalizeTask doc t).1 = some (flatOf doc uid p t) := by
        simp [normalizeTask, h, ht]
      rw [List.filterMap_cons_some (f := fun t => (normalizeTask doc t).1) hnt]
      by_cases h1 : t.program_id = pid
      · by_cases h2 : p = plat
        · subst h2
          rw [List.filter_cons_of_pos (by simp [groupKey, flatOf, h1]),
              List.filter_cons_of_pos (by simp [h1, ht]), List.map_cons, ih]
        · rw [List.filter_cons_of_neg (by simp [groupKey, flatOf, h2]),
              List.filter_cons_of_neg (by simp [ht, h2]), ih]
      · rw [List.filter_cons_of_neg (by simp [groupKey, flatOf, h1]),
            List.filter_cons_of_neg (by simp [h1]), ih]

/-- C1: every record the Normalizer emits from a raw document aggregates
exactly its `(user_id, program_id, platform)` group: each of the four
engagement totals and the sales total equals the sum of the corresponding
cleaned raw counter over the document's tasks in that group, `tasks_completed`
is the number of tasks in the group (at least 1, so a group with zero tasks
emits no record), all numeric fields are non-negative, and the source file is
stamped for lineage. -/
theorem normalizeDoc_group_invariant (src : String) (doc : RawUserDocument)
    (r : NormalizedRecord) (h : r ∈ normalizeDoc src doc) :
    doc.user_id = some r.user_id
    ∧ r.total_likes = ((doc.tasks.filter
        (fun t => t.program_id = r.program_id ∧ t.platform = some r.platform)).map
          (fun t => (cleanNumericValue t.likes).1)).sum
    ∧ r.total_comments = ((doc.tasks.filter
        (fun t => t.program_id = r.program_id ∧ t.platform = some r.platform)).map
          (fun t => (cleanNumericValue t.comments).1)).sum
    ∧ r.total_shares = ((doc.tasks.filter
        (fun t => t.program_id = r.program_id ∧ t.platform = some r.platform)).map
          (fun t => (cleanNumericValue t.shares).1)).sum
    ∧ r.total_reach = ((doc.tasks.filter
        (fun t => t.program_id = r.program_id ∧ t.platform = some r.platform)).map
          (fun t => (cleanNumericValue t.reach).1)).sum
    ∧ r.total_sales_attributed = ((doc.tasks.filter
        (fun t => t.program_id = r.program_id ∧ t.platform = some r.platform)).map
          (fun t => (cleanNumericValue t.sales_attributed).1)).sum
    ∧ r.tasks_completed = (doc.tasks.filter
        (fun t => t.program_id = r.program_id ∧ t.platform = some r.platform)).length
    ∧ 1 ≤ r.tasks_completed
    ∧ 0 ≤ r.total_likes
    ∧ 0 ≤ r.total_comments
    ∧ 0 ≤ r.total_shares
    ∧ 0 ≤ r.total_reach
    ∧ 0 ≤ r.total_sales_attributed
    ∧ r.source_file = src := by
  obtain ⟨k, hkmem, hrk⟩ := List.mem_map.mp h
  obtain ⟨u, pi, pl⟩ := k
  subst hrk
  have hkl : (u, pi, pl) ∈ (flattenDoc doc).map groupKey :=
    mem_of_mem_uniqueKeys hkmem
  obtain ⟨f, hf, hkey⟩ := List.mem_map.mp hkl
  simp only [groupKey, Prod.mk.injEq] at hkey
  obtain ⟨hfu, hfpi, hfpl⟩ := hkey
  have huid : doc.user_id = some u := by
    rw [user_id_of_mem_flattenDoc hf, hfu]
  have hg := flattenDoc_filter doc u huid pi pl
  have hfin : f ∈ (flattenDoc doc).filter
      (fun f2 => groupKey f2 = (u, pi, pl)) := by
    refine List.mem_filter.mpr ⟨hf, ?_⟩
    simp [groupKey, hfu, hfpi, hfpl]
  have hglen : 1 ≤ ((flattenDoc doc).filter
      (fun f2 => groupKey f2 = (u, pi, pl))).length := by
    have := List.length_pos.mpr (List.ne_nil_of_mem hfin)
    omega
  have key : ∀ (proj : FlatRecord → Int) (rawProj : RawTask → RawValue),
      (∀ t2, proj (flatOf doc u pl t2) = (cleanNumericValue (rawProj t2)).1) →
      ((((flattenDoc doc).filter (fun f2 => groupKey f2 = (u, pi, pl))).map proj).sum
        = ((doc.tasks.filter
            (fun t2 => t2.program_id = pi ∧ t2.platform = some pl)).map
              (fun t2 => (cleanNumericValue (rawProj t2)).1)).sum)
      ∧ 0 ≤ (((flattenDoc doc).filter
          (fun f2 => groupKey f2 = (u, pi, pl))).map proj).sum := by
    intro proj rawProj hcomm
    have hfn : (proj ∘ flatOf doc u pl)
        = fun t2 => (cleanNumericValue (rawProj t2)).1 := funext hcomm
    have hmapeq : ((flattenDoc doc).filter
          (fun f2 => groupKey f2 = (u, pi, pl))).map proj
        = (doc.tasks.filter
            (fun t2 => t2.program_id = pi ∧ t2.platform = some pl)).map
              (fun t2 => (cleanNumericValue (rawProj t2)).1) := by
      rw [hg, List.map_map, hfn]
    refine ⟨by rw [hmapeq], ?_⟩
    rw [hmapeq]
    refine List.sum_nonneg ?_
    intro x hx
    obtain ⟨t2, ht2, hxe⟩ := List.mem_map.mp hx
    rw [← hxe]
    exact cleanNumericValue_nonneg _
  refine ⟨huid, ?_, ?_, ?_, ?_, ?_, ?_, hglen, ?_, ?_, ?_, ?_, ?_, rfl⟩
  · exact (key (fun f2 => f2.likes) (fun t2 => t2.likes) (fun t2 => rfl)).1
  · exact (key (fun f2 => f2.comments) (fun t2 => t2.comments) (fun t2 => rfl)).1
  · exact (key (fun f2 => f2.shares) (fun t2 => t2.shares) (fun t2 => rfl)).1
  · exact (key (fun f2 => f2.reach) (fun t2 => t2.reach) (fun t2 => rfl)).1
  · exact (key (fun f2 => f2.sales) (fun t2 => t2.sales_attributed) (fun t2 => rfl)).1
  · show ((flattenDoc doc).filter (fun f2 => groupKey f2 = (u, pi, pl))).length
        = (doc.tasks.filter
            (fun t => t.program_id = pi ∧ t.platform = some pl)).length
    rw [hg, List.length_map]
  · exact (key (fun f2 => f2.likes) (fun t2 => t2.likes) (fun t2 => rfl)).2
  · exact (key (fun f2 => f2.comments) (fun t2 => t2.comments) (fun t2 => rfl)).2
  · exact (key (fun f2 => f2.shares) (fun t2 => t2.shares) (fun t2 => rfl)).2
  · exact (key (fun f2 => f2.reach) (fun t2 => t2.reach) (fun t2 => rfl)).2
  · exact (key (fun f2 => f2.sales) (fun t2 => t2.sales_attributed) (fun t2 => rfl)).2

/-- The record `normalizeDoc` emits for `docW` (used by the C1 witness). -/
def recW : NormalizedRecord :=
  { user_id := "u1", name := "Ada", email := "ada@example.com",
    platform := "instagram", program_id := "p1", brand := "BrandA",
    tasks_completed := 1, total_likes := 3, total_comments := 12,
    total_shares := 0, total_reach := 7, total_sales_attributed := 2,
    joined_at := "2024-01-02", source_file := "user_1.json" }

theorem normalizeDoc_group_invariant_witness :
    docW.user_id = some recW.user_id ∧ 1 ≤ recW.tasks_completed := by
  have h := normalizeDoc_group_invariant "user_1.json" docW recW (by decide)
  exact ⟨h.1, h.2.2.2.2.2.2.2.1⟩
